import Mathlib

/-!
Verification of the mShell (`smallsh`) command interpreter, `src/mshell.c`,
against its natural-language specification.

The source is shallowly embedded: each C function relevant to the claims is
translated into a Lean definition over explicit state; lines are `List Char`,
fallible or undefined-behavior paths return `Except`.
-/

set_option maxRecDepth 4000

/-! ## Process-id expansion (`parseCommand`, the `$$` loop)

The C loop repeatedly locates the leftmost occurrence of `"$$"` with
`strstr`, copies the suffix aside, and `sprintf`s the pid followed by the
suffix at that position.  `splitAtDD` is `strstr(raw, "$$")`: it returns the
prefix before the leftmost occurrence and the suffix after it. -/

def splitAtDD : List Char → Option (List Char × List Char)
  | [] => none
  | c1 :: rest =>
    match rest with
    | [] => none
    | c2 :: rest2 =>
      if c1 = '$' ∧ c2 = '$' then some ([], rest2)
      else
        match splitAtDD rest with
        | none => none
        | some (p, q) => some (c1 :: p, q)

/-- One `while((pos = strstr(...)))` loop of `parseCommand`: replace the
leftmost `"$$"` by the pid string and rescan from the start.  The C loop has
no fuel; every call made by the shell terminates because the pid string
contains no dollar sign, so the fuel `s.length` is never exhausted
(`expandLoop_eq_expandSpec`). -/
def expandLoop (pid : List Char) : Nat → List Char → List Char
  | 0, s => s
  | fuel + 1, s =>
    match splitAtDD s with
    | none => s
    | some (pre, suf) => expandLoop pid fuel (pre ++ pid ++ suf)

/-- The `$$` expansion of `parseCommand` (src/mshell.c lines 273-277). -/
def expandPid (pid : List Char) (s : List Char) : List Char :=
  expandLoop pid s.length s

/-- The specification's description of the expansion: scanning left to right,
every occurrence of the two-character marker `"$$"` is replaced by the pid
string (adjacent occurrences included) and every other character is kept. -/
def expandSpec (pid : List Char) : List Char → List Char
  | [] => []
  | [c] => [c]
  | c1 :: c2 :: rest =>
    if c1 = '$' ∧ c2 = '$' then pid ++ expandSpec pid rest
    else c1 :: expandSpec pid (c2 :: rest)
termination_by l => l.length

/-! ## Tokenization and the parse of one line (`parseCommand`) -/

/-- The parsed command record (`struct Command`).  `rawCommand` is the input
of `parseCommand`; the pid field is not used by any claim. -/
structure Command where
  args : List (List Char)
  numArgs : Nat
  inputRedirect : Bool
  inputFile : List Char
  outputRedirect : Bool
  outputFile : List Char
  backgroundProcess : Bool
deriving DecidableEq

/-- Result of `calloc(1, sizeof(struct Command))`: all flags false, all buffers empty. -/
def initCommand : Command :=
  { args := [], numArgs := 0, inputRedirect := false, inputFile := [],
    outputRedirect := false, outputFile := [], backgroundProcess := false }

/-- Undefined-behavior outcomes of `parseCommand` made explicit:
`strcpyNull` is `strcpy(dest, NULL)` after `strtok` returned `NULL`;
`oobRead` is the read of `args[numArgs-1]` with `numArgs = 0`. -/
inductive ParseErr where
  | strcpyNull
  | oobRead
deriving DecidableEq

/-- Repeated `strtok(rawCommand, " ")`: the maximal space-free runs. -/
def tokenize (s : List Char) : List (List Char) :=
  (s.splitOn ' ').filter (fun t => !t.isEmpty)

/-- The token loop of `parseCommand` (src/mshell.c lines 279-300): `<` and `>`
consume the following token as a redirection target, everything else is
appended to `args`.  When no token follows the operator, the C code calls
`strcpy(file, NULL)`. -/
def parseLoop : List (List Char) → Command → Except ParseErr Command
  | [], c => Except.ok c
  | t :: rest, c =>
    if t = ['<'] then
      match rest with
      | [] => Except.error ParseErr.strcpyNull
      | f :: rest2 => parseLoop rest2 { c with inputRedirect := true, inputFile := f }
    else if t = ['>'] then
      match rest with
      | [] => Except.error ParseErr.strcpyNull
      | f :: rest2 => parseLoop rest2 { c with outputRedirect := true, outputFile := f }
    else
      parseLoop rest { c with args := c.args ++ [t], numArgs := c.numArgs + 1 }

/-- The trailing background-marker check of `parseCommand` (src/mshell.c lines
301-309).  The C code reads `args[numArgs-1]` unconditionally; with
`numArgs = 0` that is `args[-1]`, an out-of-bounds read.  On a match the code
overwrites `args[numArgs-1]` with `NULL`, so the argument vector now ends
before the marker: `args.take (numArgs - 1)`. -/
def bgCheck (c : Command) : Except ParseErr Command :=
  if c.numArgs = 0 then Except.error ParseErr.oobRead
  else
    match c.args.get? (c.numArgs - 1) with
    | none => Except.error ParseErr.oobRead
    | some t =>
      if t = ['&'] then
        Except.ok { c with backgroundProcess := true, args := c.args.take (c.numArgs - 1) }
      else Except.ok c

/-- The function `parseCommand` (src/mshell.c lines 270-310): `$$` expansion, tokenization,
then the background-marker check. -/
def parseCommand (pid : List Char) (raw : List Char) : Except ParseErr Command :=
  match parseLoop (tokenize (expandPid pid raw)) initCommand with
  | Except.error e => Except.error e
  | Except.ok c => bgCheck c

/-! ## Wait-status decoding and `reportStatus` -/

/-- Macro `WIFEXITED(s)`: low seven bits zero (glibc encoding). -/
def wifexited (s : Nat) : Bool := s % 128 == 0

/-- Macro `WEXITSTATUS(s)`: bits 8-15. -/
def wexitstatus (s : Nat) : Nat := (s / 256) % 256

/-- Macro `WTERMSIG(s)`: the low seven bits. -/
def wtermsig (s : Nat) : Nat := s % 128

/-- Macro `WIFSIGNALED(s)`: glibc computes `((signed char)(((s & 0x7f) + 1) >> 1)) > 0`,
which holds exactly when the low seven bits are in `1..126`. -/
def wifsignaled (s : Nat) : Bool := decide (1 ≤ s % 128 ∧ s % 128 ≤ 126)

/-- The function `reportStatus` (src/mshell.c lines 54-63): the lines printed for the given
wait status. -/
def reportStatus (status : Nat) : List String :=
  if wifexited status then
    ["exit value " ++ toString (wexitstatus status) ++ "\n"]
  else if wifsignaled status then
    ["terminated by signal " ++ toString (wtermsig status) ++ "\n"]
  else []

/-! ## Redirection setup (`inputoutputRedirect`) and the child-side flags -/

/-- The filesystem as seen by `open(2)`: whether a path can be opened for
reading / for writing-with-create.  The null device itself is modelled as
always openable (the C code exits the child if that open fails). -/
structure FS where
  readOk : List Char → Bool
  writeOk : List Char → Bool

/-- What a standard stream of the child is bound to when `execvp` runs. -/
inductive Binding where
  | inherited
  | nullDev
  | file (p : List Char)
deriving DecidableEq

/-- Standard-input half of `inputoutputRedirect` (src/mshell.c lines 180-210):
flag unset leaves the stream inherited; flag set with an empty target opens
`/dev/null`; otherwise the named file, whose open may fail (the child exits). -/
def redirectStdin (fs : FS) (c : Command) : Except String Binding :=
  if c.inputRedirect then
    if c.inputFile.length = 0 then Except.ok Binding.nullDev
    else if fs.readOk c.inputFile then Except.ok (Binding.file c.inputFile)
    else Except.error ("Unable to open input file: " ++ String.mk c.inputFile ++ ".\n")
  else Except.ok Binding.inherited

/-- Standard-output half of `inputoutputRedirect` (src/mshell.c lines 211-241). -/
def redirectStdout (fs : FS) (c : Command) : Except String Binding :=
  if c.outputRedirect then
    if c.outputFile.length = 0 then Except.ok Binding.nullDev
    else if fs.writeOk c.outputFile then Except.ok (Binding.file c.outputFile)
    else Except.error ("Unable to open output file: " ++ String.mk c.outputFile ++ ".\n")
  else Except.ok Binding.inherited

/-- The function `inputoutputRedirect` (src/mshell.c lines 178-242): input first, then
output; a failed open terminates the child before `execvp`. -/
def inputoutputRedirect (fs : FS) (c : Command) : Except String (Binding × Binding) :=
  match redirectStdin fs c with
  | Except.error e => Except.error e
  | Except.ok bIn =>
    match redirectStdout fs c with
    | Except.error e => Except.error e
    | Except.ok bOut => Except.ok (bIn, bOut)

/-- The child-side flag adjustment in `routeCommand` (src/mshell.c lines
345-355): a background-eligible command has any still-unset redirect flag
forced on, so the redirect handler points that stream at `/dev/null`. -/
def childSetup (allowBackground : Bool) (c : Command) : Command :=
  if c.backgroundProcess && allowBackground then
    let c1 := if !c.inputRedirect then { c with inputRedirect := true } else c
    if !c1.outputRedirect then { c1 with outputRedirect := true } else c1
  else c

/-! ## The SIGTSTP mode state machine (`allowbackground` / `foregroundonly`)

The three `volatile sig_atomic_t` globals plus the identity of the installed
SIGTSTP handler, driven by the events the interpreter produces: a signal
delivery, `routeCommand` entry (`processActive = true`), the return of the
foreground `waitpid` with its deferred-notice check, and `routeCommand` exit
(`processActive = false`). -/

structure ModeState where
  allowBackground : Bool
  sigtstpTriggered : Bool
  processActive : Bool
  handlerFg : Bool
deriving DecidableEq

/-- State at `shell()` start: background allowed, nothing pending, no command
running, `sigtstpSet` installed the `foregroundonly` handler. -/
def initModeState : ModeState :=
  { allowBackground := true, sigtstpTriggered := false,
    processActive := false, handlerFg := true }

/-- What the `foregroundonly` handler writes when no command is active. -/
def msgEnterImm : String := "\nEntering foreground-only mode (& is now ignored).\n: "

/-- What the `allowbackground` handler writes when no command is active. -/
def msgExitImm : String := "\nExiting foreground-only mode.\n: "

/-- The deferred entering notice printed by `routeCommand` after a foreground
wait (src/mshell.c line 387). -/
def msgEnterDef : String := "\nEntering foreground-only mode (& will be ignored).\n"

/-- The deferred exiting notice printed by `routeCommand` after a foreground
wait (src/mshell.c line 383). -/
def msgExitDef : String := "\nExiting foreground-only mode.\n"

/-- The `foregroundonly` handler (src/mshell.c lines 143-164): install the
opposite handler, clear `allowBackground`, set `sigtstpTriggered`; if no
command is active it writes the notice and clears the pending flag again, so
the net pending flag equals `processActive`. -/
def foregroundonly (s : ModeState) : ModeState × List String :=
  if !s.processActive then
    ({ s with handlerFg := false, allowBackground := false, sigtstpTriggered := false },
      [msgEnterImm])
  else
    ({ s with handlerFg := false, allowBackground := false, sigtstpTriggered := true }, [])

/-- The `allowbackground` handler (src/mshell.c lines 120-142), same shape. -/
def allowbackground (s : ModeState) : ModeState × List String :=
  if !s.processActive then
    ({ s with handlerFg := true, allowBackground := true, sigtstpTriggered := false },
      [msgExitImm])
  else
    ({ s with handlerFg := true, allowBackground := true, sigtstpTriggered := true }, [])

/-- Events touching the mode state. -/
inductive MEvent where
  | sigtstp
  | beginCmd
  | fgRet
  | endCmd
deriving DecidableEq

/-- One event: a SIGTSTP delivery runs whichever handler is installed; the
foreground-wait return runs the deferred-notice check of `routeCommand`
(src/mshell.c lines 381-391). -/
def stepMode (s : ModeState) : MEvent → ModeState × List String
  | MEvent.sigtstp => if s.handlerFg then foregroundonly s else allowbackground s
  | MEvent.beginCmd => ({ s with processActive := true }, [])
  | MEvent.fgRet =>
    if s.sigtstpTriggered then
      ({ s with sigtstpTriggered := false },
        [if s.allowBackground then msgExitDef else msgEnterDef])
    else (s, [])
  | MEvent.endCmd => ({ s with processActive := false }, [])

/-- Run a sequence of mode events, collecting everything written. -/
def runMode : ModeState → List MEvent → ModeState × List String
  | s, [] => (s, [])
  | s, e :: t =>
    let r := stepMode s e
    let r2 := runMode r.1 t
    (r2.1, r.2 ++ r2.2)

/-- Number of SIGTSTP deliveries in a trace. -/
def countSig : List MEvent → Nat
  | [] => 0
  | MEvent.sigtstp :: t => countSig t + 1
  | _ :: t => countSig t

/-- 1 when a mode-change notice is still pending, else 0. -/
def pendCount (s : ModeState) : Nat := if s.sigtstpTriggered then 1 else 0

/-- Traces in which no SIGTSTP is delivered while a notice is still pending:
`pending` and `active` track `sigtstpTriggered` and `processActive`. -/
def wfMode : Bool → Bool → List MEvent → Bool
  | pending, active, MEvent.sigtstp :: t => !pending && wfMode active active t
  | pending, _, MEvent.beginCmd :: t => wfMode pending true t
  | _, active, MEvent.fgRet :: t => wfMode false active t
  | pending, _, MEvent.endCmd :: t => wfMode pending false t
  | _, _, [] => true

/-- Decidable "the pattern occurs as a contiguous run" on character lists,
used to compare emitted notices with the texts the specification names. -/
def startsWith : List Char → List Char → Bool
  | [], _ => true
  | _ :: _, [] => false
  | p :: ps, c :: cs => p = c && startsWith ps cs

/-- Predicate `containsPat pat s`: `pat` occurs contiguously somewhere in `s`. -/
def containsPat (pat : List Char) : List Char → Bool
  | [] => startsWith pat []
  | c :: cs => startsWith pat (c :: cs) || containsPat pat cs

/-! ## The `cd` builtin -/

/-- The environment and filesystem consulted by `cd`: `home` is
`getenv("HOME")`, `chdirOk p` tells whether `chdir(p)` succeeds. -/
structure CdSys where
  home : Option (List Char)
  chdirOk : List Char → Bool

/-- Effect of `chdir` on an optional path: `chdir(NULL)` fails and, like any failed
`chdir`, leaves the working directory unchanged; success moves to the path. -/
def chdirSys (sys : CdSys) (cwd : List Char) : Option (List Char) → List Char × Bool
  | none => (cwd, false)
  | some p => if sys.chdirOk p then (p, true) else (cwd, false)

/-- Outcome of the `cd` builtin: resulting working directory, whether an
error message was printed, and whether the interpreter was terminated. -/
structure CdResult where
  cwd : List Char
  reported : Bool
  fatal : Bool
deriving DecidableEq

/-- The builtin `cd` (src/mshell.c lines 70-80): with no argument, `chdir(getenv("HOME"))`
with the return value ignored; with an argument, `chdir(dir)` and `perror`
on failure.  Neither path terminates the interpreter. -/
def cd (sys : CdSys) (cwd : List Char) : Option (List Char) → CdResult
  | none =>
    { cwd := (chdirSys sys cwd sys.home).1, reported := false, fatal := false }
  | some d =>
    let r := chdirSys sys cwd (some d)
    { cwd := r.1, reported := !r.2, fatal := false }

/-! ## `routeCommand` (parent side) and `burnZombie` -/

/-- The interpreter-side globals threaded through one dispatch. -/
structure ShellState where
  exitStatus : Nat
  allowBackground : Bool
  sigtstpTriggered : Bool
  cwd : List Char
deriving DecidableEq

/-- The operating-system responses one dispatch can observe: the `cd`
environment, whether `fork` succeeds, the child pid, and the status the
foreground `waitpid` would store. -/
structure Sys where
  cdSys : CdSys
  forkOk : Bool
  childPid : Nat
  waitStatus : Nat

/-- Result of `routeCommand`: the loop continues with a new state and some
output, the `exit` builtin terminates the run, fork failure is fatal, or the
`args[0]` read hit an empty argument vector. -/
inductive RouteResult where
  | cont (st : ShellState) (out : List String)
  | exited (out : List String)
  | fatal (code : Nat)
  | oob

/-- The function `routeCommand`, parent side (src/mshell.c lines 313-399): builtins by
exact first-token match, otherwise fork; a background-eligible child's pid is
printed without waiting, a foreground child is waited for, `exitStatus` is
updated, a signal termination is reported at once, and a pending mode-change
notice is flushed. -/
def routeCommand (sys : Sys) (c : Command) (st : ShellState) : RouteResult :=
  match c.args with
  | [] => RouteResult.oob
  | a0 :: rest =>
    if a0 = "cd".data then
      let r := cd sys.cdSys st.cwd rest.head?
      RouteResult.cont { st with cwd := r.cwd }
        (if r.reported then ["Nope"] else [])
    else if a0 = "status".data then
      RouteResult.cont st (reportStatus st.exitStatus)
    else if a0 = "exit".data then
      RouteResult.exited []
    else if !sys.forkOk then
      RouteResult.fatal 1
    else if c.backgroundProcess && st.allowBackground then
      RouteResult.cont st ["background pid is " ++ toString sys.childPid ++ "\n"]
    else
      if st.sigtstpTriggered then
        RouteResult.cont { st with exitStatus := sys.waitStatus, sigtstpTriggered := false }
          ((if wifsignaled sys.waitStatus then
              ["terminated by signal " ++ toString (wtermsig sys.waitStatus) ++ "\n"]
            else []) ++
            [if st.allowBackground then msgExitDef else msgEnterDef])
      else
        RouteResult.cont { st with exitStatus := sys.waitStatus }
          (if wifsignaled sys.waitStatus then
            ["terminated by signal " ++ toString (wtermsig sys.waitStatus) ++ "\n"]
          else [])

/-- The dispatches of `routeCommand` that block in a foreground `waitpid`:
a non-builtin first token and no background eligibility. -/
def foregroundDispatch (c : Command) (st : ShellState) : Bool :=
  match c.args with
  | [] => false
  | a0 :: _ =>
    if a0 = "cd".data ∨ a0 = "status".data ∨ a0 = "exit".data then false
    else !(c.backgroundProcess && st.allowBackground)

/-- The function `burnZombie` (src/mshell.c lines 84-94): reap every already-terminated
background child, printing its pid and termination report.  `waitpid` stores
into the local `zStatus`; the interpreter globals are untouched. -/
def burnZombie (st : ShellState) (zombies : List (Nat × Nat)) :
    ShellState × List String :=
  (st, (zombies.map (fun z =>
    ("background pid " ++ toString z.1 ++ " is done: ") :: reportStatus z.2)).flatten)

/-! ## The line reader (`getCommand`) -/

/-- One `getline` result: end of input (return value `-1`) or a line,
including its trailing newline. -/
inductive ReadResult where
  | eofR
  | lineR (s : List Char)

/-- The `while(1)` read loop of `getCommand` (src/mshell.c lines 245-267),
reading from position `k` of the input stream `inp` with an explicit
iteration bound: end of input and blank/space/comment lines hit
`clearerr(stdin)` and re-prompt; anything else is returned with everything
from the first newline on replaced by the terminator. -/
def getCommandLoop (inp : Nat → ReadResult) : Nat → Nat → Option (List Char × Nat)
  | 0, _ => none
  | fuel + 1, k =>
    match inp k with
    | ReadResult.eofR => getCommandLoop inp fuel (k + 1)
    | ReadResult.lineR s =>
      if decide (s.length ≤ 1) || (s.head? == some ' ') || (s.head? == some '#') then
        getCommandLoop inp fuel (k + 1)
      else some (s.takeWhile (fun c => c ≠ '\n'), k + 1)

/-! ## Theorems -/

/-- C5: the claim says the background-marker check never reads an element of
an empty argument sequence.  The code refutes it: on the line `"< x"` both
tokens are consumed by the redirection operator, `numArgs` is `0`, and
`strcmp(cmnd->args[cmnd->numArgs-1], "&")` reads `args[-1]` — an
out-of-bounds access, modelled as `ParseErr.oobRead`. -/
theorem c5_empty_args_oob_read :
    parseCommand "42".data "< x".data = Except.error ParseErr.oobRead := by
  rfl

/-- C6: the claim says a redirection operator with no following token leaves
the target empty.  The code refutes it: on the line `"a <"` the parser calls
`strtok`, gets `NULL`, and passes it straight to
`strcpy(cmnd->inputFile, token)` — undefined behavior, modelled as
`ParseErr.strcpyNull`. -/
theorem c6_missing_target_strcpy_null :
    parseCommand "42".data "a <".data = Except.error ParseErr.strcpyNull := by
  rfl

/-- C7: the claim says end-of-input terminates the interpreter.  The code
refutes it: once `getline` returns `-1` the loop hits `clearerr(stdin)` and
re-prompts, so for every iteration bound the read loop of `getCommand` is
still running (it never returns a line and never exits). -/
theorem c7_eof_spins_forever :
    ∀ fuel k, getCommandLoop (fun _ => ReadResult.eofR) fuel k = none := by
  intro fuel
  induction fuel with
  | zero => intro k; rfl
  | succ n ih => intro k; exact ih (k + 1)

/-- C8: `status` after a foreground command that exited normally with code
`c` (wait status `256 * c`) prints exactly `exit value c`; after a foreground
command killed by signal `s` (wait status `s`, a real signal number) it
prints exactly `terminated by signal s`; and dispatching the `status` builtin
emits precisely `reportStatus` of the stored status. -/
theorem c8_status_builtin_messages (c s : Nat) (hc : c < 256)
    (hs1 : 1 ≤ s) (hs2 : s ≤ 126) :
    reportStatus (256 * c) = ["exit value " ++ toString c ++ "\n"] ∧
    reportStatus s = ["terminated by signal " ++ toString s ++ "\n"] ∧
    ∀ (sys : Sys) (st : ShellState),
      routeCommand sys { initCommand with args := ["status".data], numArgs := 1 } st
        = RouteResult.cont st (reportStatus st.exitStatus) := by
  refine ⟨?_, ?_, ?_⟩
  · have h1 : 256 * c % 128 = 0 := by omega
    have h2 : 256 * c / 256 = c := by omega
    simp [reportStatus, wifexited, wexitstatus, h1, h2, Nat.mod_eq_of_lt hc]
  · have h1 : s % 128 = s := Nat.mod_eq_of_lt (by omega)
    have h2 : s ≠ 0 := by omega
    simp [reportStatus, wifexited, wifsignaled, wtermsig, h1, h2, hs1, hs2]
  · intro sys st
    rfl

/-- Closed witness for the hypotheses of the C8 theorem, at the
specification's own examples: exit code 3 and signal 9. -/
theorem c8_status_builtin_messages_witness :
    reportStatus (256 * 3) = ["exit value " ++ toString 3 ++ "\n"] ∧
    reportStatus 9 = ["terminated by signal " ++ toString 9 ++ "\n"] ∧
    ∀ (sys : Sys) (st : ShellState),
      routeCommand sys { initCommand with args := ["status".data], numArgs := 1 } st
        = RouteResult.cont st (reportStatus st.exitStatus) :=
  c8_status_builtin_messages 3 9 (by decide) (by decide) (by decide)

/-! ### Lemmas about `splitAtDD` and `expandSpec` (for C3) -/

theorem splitAtDD_cons2 (c1 c2 : Char) (rest : List Char) :
    splitAtDD (c1 :: c2 :: rest) =
      if c1 = '$' ∧ c2 = '$' then some ([], rest)
      else
        match splitAtDD (c2 :: rest) with
        | none => none
        | some (p, q) => some (c1 :: p, q) := rfl

theorem expandSpec_cons2 (pid : List Char) (c1 c2 : Char) (rest : List Char) :
    expandSpec pid (c1 :: c2 :: rest) =
      if c1 = '$' ∧ c2 = '$' then pid ++ expandSpec pid rest
      else c1 :: expandSpec pid (c2 :: rest) := by
  rw [expandSpec]

/-- Decomposition by `strstr`: a hit splits the string at the leftmost `"$$"`. -/
theorem splitAtDD_some_decomp :
    ∀ (s pre suf : List Char), splitAtDD s = some (pre, suf) →
      s = pre ++ '$' :: '$' :: suf := by
  intro s
  induction s with
  | nil => intro pre suf h; simp [splitAtDD] at h
  | cons c1 rest ih =>
    intro pre suf h
    cases rest with
    | nil => simp [splitAtDD] at h
    | cons c2 rest2 =>
      rw [splitAtDD_cons2] at h
      by_cases hdd : c1 = '$' ∧ c2 = '$'
      · rw [if_pos hdd] at h
        simp only [Option.some.injEq, Prod.mk.injEq] at h
        obtain ⟨h1, h2⟩ := h
        subst h1; subst h2
        simp [hdd.1, hdd.2]
      · rw [if_neg hdd] at h
        cases hs : splitAtDD (c2 :: rest2) with
        | none => rw [hs] at h; simp at h
        | some pq =>
          obtain ⟨p, q⟩ := pq
          rw [hs] at h
          simp only [Option.some.injEq, Prod.mk.injEq] at h
          obtain ⟨h1, h2⟩ := h
          subst h1; subst h2
          simpa using ih p q hs

/-- No `"$$"` anywhere: the expansion scan leaves the string unchanged. -/
theorem splitAtDD_none_expand (pid : List Char) :
    ∀ s, splitAtDD s = none → expandSpec pid s = s := by
  intro s
  induction s with
  | nil => intro _; simp [expandSpec]
  | cons c1 rest ih =>
    intro h
    cases rest with
    | nil => simp [expandSpec]
    | cons c2 rest2 =>
      rw [splitAtDD_cons2] at h
      by_cases hdd : c1 = '$' ∧ c2 = '$'
      · rw [if_pos hdd] at h; simp at h
      · rw [if_neg hdd] at h
        cases hs : splitAtDD (c2 :: rest2) with
        | none => rw [expandSpec_cons2, if_neg hdd, ih hs]
        | some pq =>
          obtain ⟨p, q⟩ := pq
          rw [hs] at h; simp at h

/-- The scan of the part before the leftmost hit followed by anything: a
dollar-free block passes through the scan unchanged. -/
theorem expandSpec_append_nodollar (pid : List Char) :
    ∀ (a l : List Char), (∀ c ∈ a, c ≠ '$') →
      expandSpec pid (a ++ l) = a ++ expandSpec pid l := by
  intro a
  induction a with
  | nil => intro l _; simp
  | cons c a2 ih =>
    intro l ha
    have hc : c ≠ '$' := ha c (List.mem_cons_self c a2)
    have ha2 : ∀ x ∈ a2, x ≠ '$' := fun x hx => ha x (List.mem_cons_of_mem _ hx)
    show expandSpec pid (c :: (a2 ++ l)) = c :: (a2 ++ expandSpec pid l)
    cases h : a2 ++ l with
    | nil =>
      have : a2 = [] ∧ l = [] := List.append_eq_nil.mp h
      obtain ⟨rfl, rfl⟩ := this
      simp [expandSpec]
    | cons d m =>
      rw [expandSpec_cons2, if_neg (by simp [hc]), ← h, ih l ha2]

/-- Expanding across the leftmost hit: prefix, pid, then the scanned suffix. -/
theorem splitAtDD_some_expand (pid : List Char) :
    ∀ s pre suf, splitAtDD s = some (pre, suf) →
      expandSpec pid s = pre ++ pid ++ expandSpec pid suf := by
  intro s
  induction s with
  | nil => intro pre suf h; simp [splitAtDD] at h
  | cons c1 rest ih =>
    intro pre suf h
    cases rest with
    | nil => simp [splitAtDD] at h
    | cons c2 rest2 =>
      rw [splitAtDD_cons2] at h
      by_cases hdd : c1 = '$' ∧ c2 = '$'
      · rw [if_pos hdd] at h
        simp only [Option.some.injEq, Prod.mk.injEq] at h
        obtain ⟨h1, h2⟩ := h
        subst h1; subst h2
        rw [expandSpec_cons2, if_pos hdd]; simp
      · rw [if_neg hdd] at h
        cases hs : splitAtDD (c2 :: rest2) with
        | none => rw [hs] at h; simp at h
        | some pq =>
          obtain ⟨p, q⟩ := pq
          rw [hs] at h
          simp only [Option.some.injEq, Prod.mk.injEq] at h
          obtain ⟨h1, h2⟩ := h
          subst h1; subst h2
          rw [expandSpec_cons2, if_neg hdd, ih p q hs]
          simp

/-- The prefix returned by `strstr` on `c :: t` is empty or starts with `c`. -/
theorem splitAtDD_pre_head (c : Char) (t : List Char) (p q : List Char)
    (h : splitAtDD (c :: t) = some (p, q)) : p = [] ∨ ∃ p2, p = c :: p2 := by
  cases t with
  | nil => simp [splitAtDD] at h
  | cons c2 t2 =>
    rw [splitAtDD_cons2] at h
    by_cases hdd : c = '$' ∧ c2 = '$'
    · rw [if_pos hdd] at h
      simp only [Option.some.injEq, Prod.mk.injEq] at h
      exact Or.inl h.1.symm
    · rw [if_neg hdd] at h
      cases hs : splitAtDD (c2 :: t2) with
      | none => rw [hs] at h; simp at h
      | some pq =>
        obtain ⟨p0, q0⟩ := pq
        rw [hs] at h
        simp only [Option.some.injEq, Prod.mk.injEq] at h
        exact Or.inr ⟨p0, h.1.symm⟩

/-- Scanning the replaced string: a leftmost-hit prefix followed by the
dollar-free pid passes through the scan unchanged. -/
theorem splitAtDD_some_expand_insert (pid : List Char) (hne : pid ≠ [])
    (hnd : ∀ c ∈ pid, c ≠ '$') :
    ∀ s pre suf, splitAtDD s = some (pre, suf) →
      ∀ l, expandSpec pid (pre ++ pid ++ l) = pre ++ pid ++ expandSpec pid l := by
  intro s
  induction s with
  | nil => intro pre suf h; simp [splitAtDD] at h
  | cons c1 rest ih =>
    intro pre suf h l
    cases rest with
    | nil => simp [splitAtDD] at h
    | cons c2 rest2 =>
      rw [splitAtDD_cons2] at h
      by_cases hdd : c1 = '$' ∧ c2 = '$'
      · rw [if_pos hdd] at h
        simp only [Option.some.injEq, Prod.mk.injEq] at h
        obtain ⟨h1, _⟩ := h
        subst h1
        simpa using expandSpec_append_nodollar pid pid l hnd
      · rw [if_neg hdd] at h
        cases hs : splitAtDD (c2 :: rest2) with
        | none => rw [hs] at h; simp at h
        | some pq =>
          obtain ⟨p, q⟩ := pq
          rw [hs] at h
          simp only [Option.some.injEq, Prod.mk.injEq] at h
          obtain ⟨h1, _⟩ := h
          subst h1
          rcases splitAtDD_pre_head c2 rest2 p q hs with hp | ⟨p2, hp⟩
          · subst hp
            cases pid with
            | nil => exact absurd rfl hne
            | cons d pid2 =>
              have hd : d ≠ '$' := hnd d (List.mem_cons_self d pid2)
              show expandSpec (d :: pid2) (c1 :: (d :: (pid2 ++ l)))
                  = c1 :: (d :: (pid2 ++ expandSpec (d :: pid2) l))
              rw [expandSpec_cons2, if_neg (by simp [hd])]
              have := expandSpec_append_nodollar (d :: pid2) (d :: pid2) l hnd
              simpa using this
          · subst hp
            show expandSpec pid (c1 :: c2 :: (p2 ++ pid ++ l))
                = c1 :: c2 :: (p2 ++ pid ++ expandSpec pid l)
            rw [expandSpec_cons2, if_neg hdd]
            have := ih (c2 :: p2) q hs l
            simpa using this

/-- Each successful loop iteration removes one `"$$"`: the `strstr` loop of
`parseCommand` computes exactly the specification's left-to-right scan, for
any fuel at least the number of dollar signs. -/
theorem expandLoop_eq_expandSpec (pid : List Char) (hne : pid ≠ [])
    (hnd : ∀ c ∈ pid, c ≠ '$') :
    ∀ fuel s, s.count '$' ≤ fuel → expandLoop pid fuel s = expandSpec pid s := by
  intro fuel
  induction fuel with
  | zero =>
    intro s hcount
    cases hs : splitAtDD s with
    | none => rw [splitAtDD_none_expand pid s hs]; rfl
    | some pq =>
      obtain ⟨pre, suf⟩ := pq
      exfalso
      have hdec := splitAtDD_some_decomp s pre suf hs
      rw [hdec] at hcount
      simp [List.count_append, List.count_cons] at hcount
  | succ n ih =>
    intro s hcount
    cases hs : splitAtDD s with
    | none =>
      rw [splitAtDD_none_expand pid s hs]
      simp [expandLoop, hs]
    | some pq =>
      obtain ⟨pre, suf⟩ := pq
      have hdec := splitAtDD_some_decomp s pre suf hs
      have hpid0 : pid.count '$' = 0 := by
        rw [List.count_eq_zero]
        intro hmem
        exact hnd '$' hmem rfl
      have hcount2 : (pre ++ pid ++ suf).count '$' ≤ n := by
        rw [hdec] at hcount
        simp [List.count_append, List.count_cons, hpid0] at hcount ⊢
        omega
      have step : expandLoop pid (n + 1) s = expandLoop pid n (pre ++ pid ++ suf) := by
        simp [expandLoop, hs]
      rw [step, ih (pre ++ pid ++ suf) hcount2,
        splitAtDD_some_expand pid s pre suf hs]
      exact splitAtDD_some_expand_insert pid hne hnd s pre suf hs suf

/-- C3: for a pid string that is a nonempty decimal numeral (in particular
dollar-free), the `$$` loop of `parseCommand` rewrites a raw line to exactly
the specification's expansion: every occurrence of `"$$"` replaced by the pid
string, left to right, adjacent occurrences included, all other characters
unchanged (`expandSpec`). -/
theorem c3_pid_expansion (pid : List Char) (hne : pid ≠ [])
    (hnd : ∀ c ∈ pid, c ≠ '$') (s : List Char) :
    expandPid pid s = expandSpec pid s :=
  expandLoop_eq_expandSpec pid hne hnd s.length s (List.count_le_length '$' s)

/-- Closed witness for C3: a concrete pid and a line with adjacent and
embedded markers; the loop result also evaluates to the expected line. -/
theorem c3_pid_expansion_witness :
    ("1234".data ≠ [] ∧ ∀ c ∈ "1234".data, c ≠ '$') ∧
    expandPid "1234".data "echo $$$$ a$$b".data
      = expandSpec "1234".data "echo $$$$ a$$b".data ∧
    expandPid "1234".data "echo $$$$ a$$b".data
      = "echo 12341234 a1234b".data :=
  ⟨⟨by decide, by decide⟩,
    c3_pid_expansion "1234".data (by decide) (by decide) "echo $$$$ a$$b".data,
    by rfl⟩

/-- C4: for a tokenized line whose last argument element is exactly `"&"`,
the background-marker check removes exactly that element and sets the
background flag; otherwise it changes nothing — argument sequence, argument
count and background flag included.  (`numArgs = args.length` and a nonempty
vector are the state `parseLoop` hands over; the parse starts from
`backgroundProcess = false`.) -/
theorem c4_background_marker (c : Command) (hn : c.numArgs = c.args.length)
    (hne : c.args ≠ []) :
    (c.args.getLast? = some ['&'] →
      bgCheck c = Except.ok { c with backgroundProcess := true, args := c.args.dropLast }) ∧
    (c.args.getLast? ≠ some ['&'] → bgCheck c = Except.ok c) := by
  have hlen : c.args.length ≠ 0 := fun h0 => hne (List.eq_nil_of_length_eq_zero h0)
  have hnz : ¬ c.numArgs = 0 := by rw [hn]; exact hlen
  have hget : c.args.get? (c.numArgs - 1) = c.args.getLast? := by
    rw [hn, List.getLast?_eq_get?]
  constructor
  · intro hlast
    unfold bgCheck
    rw [if_neg hnz, hget, hlast]
    have htake : c.args.take (c.numArgs - 1) = c.args.dropLast := by
      rw [hn, ← List.dropLast_eq_take]
    simp [htake]
  · intro hlast
    unfold bgCheck
    rw [if_neg hnz, hget]
    cases hl : c.args.getLast? with
    | none => exact absurd (List.getLast?_eq_none_iff.mp hl) hne
    | some t =>
      have ht : ¬ t = ['&'] := fun h0 => hlast (by rw [hl, h0])
      simp [ht]

/-- Closed witness for C4, both directions on concrete vectors. -/
theorem c4_background_marker_witness :
    bgCheck { initCommand with args := [['l', 's'], ['&']], numArgs := 2 }
      = Except.ok
        { initCommand with
          args := [['l', 's']]
          numArgs := 2
          backgroundProcess := true } ∧
    bgCheck { initCommand with args := [['l', 's'], ['-', 'l']], numArgs := 2 }
      = Except.ok { initCommand with args := [['l', 's'], ['-', 'l']], numArgs := 2 } :=
  ⟨by
    have h := (c4_background_marker
      { initCommand with args := [['l', 's'], ['&']], numArgs := 2 }
      (by decide) (by decide)).1 (by decide)
    simpa using h,
   by
    have h := (c4_background_marker
      { initCommand with args := [['l', 's'], ['-', 'l']], numArgs := 2 }
      (by decide) (by decide)).2 (by decide)
    simpa using h⟩

/-- Unfolding equation for `parseLoop` on a nonempty token list. -/
theorem parseLoop_cons (t : List Char) (rest : List (List Char)) (c : Command) :
    parseLoop (t :: rest) c =
      if t = ['<'] then
        match rest with
        | [] => Except.error ParseErr.strcpyNull
        | f :: rest2 => parseLoop rest2 { c with inputRedirect := true, inputFile := f }
      else if t = ['>'] then
        match rest with
        | [] => Except.error ParseErr.strcpyNull
        | f :: rest2 => parseLoop rest2 { c with outputRedirect := true, outputFile := f }
      else
        parseLoop rest { c with args := c.args ++ [t], numArgs := c.numArgs + 1 } := by
  rw [parseLoop.eq_def]

/-- The loop `parseLoop` writes a redirection target only together with its flag, so a
clear flag still has the `calloc`-empty target. -/
theorem parseLoop_files :
    ∀ (n : Nat) (ts : List (List Char)), ts.length ≤ n → ∀ (c c2 : Command),
      parseLoop ts c = Except.ok c2 →
      (c.inputRedirect = false → c.inputFile = []) →
      (c.outputRedirect = false → c.outputFile = []) →
      (c2.inputRedirect = false → c2.inputFile = []) ∧
      (c2.outputRedirect = false → c2.outputFile = []) := by
  intro n
  induction n with
  | zero =>
    intro ts hlen c c2 h hi ho
    have : ts = [] := List.eq_nil_of_length_eq_zero (Nat.le_zero.mp hlen)
    subst this
    simp only [parseLoop, Except.ok.injEq] at h
    subst h
    exact ⟨hi, ho⟩
  | succ n ih =>
    intro ts hlen c c2 h hi ho
    cases ts with
    | nil =>
      simp only [parseLoop, Except.ok.injEq] at h
      subst h
      exact ⟨hi, ho⟩
    | cons t rest =>
      rw [parseLoop_cons] at h
      by_cases h1 : t = ['<']
      · rw [if_pos h1] at h
        cases rest with
        | nil => exact Except.noConfusion h
        | cons f rest2 =>
          have hlen2 : rest2.length ≤ n := by
            simp only [List.length_cons] at hlen
            omega
          exact ih rest2 hlen2 _ c2 h (fun hq => by simp at hq) ho
      · rw [if_neg h1] at h
        by_cases h2 : t = ['>']
        · rw [if_pos h2] at h
          cases rest with
          | nil => exact Except.noConfusion h
          | cons f rest2 =>
            have hlen2 : rest2.length ≤ n := by
              simp only [List.length_cons] at hlen
              omega
            exact ih rest2 hlen2 _ c2 h hi (fun hq => by simp at hq)
        · rw [if_neg h2] at h
          have hlen2 : rest.length ≤ n := by
            simp only [List.length_cons] at hlen
            omega
          exact ih rest hlen2 _ c2 h hi ho

/-- The check `bgCheck` leaves the redirection flags and targets untouched. -/
theorem bgCheck_frame (c c2 : Command) (h : bgCheck c = Except.ok c2) :
    c2.inputRedirect = c.inputRedirect ∧ c2.inputFile = c.inputFile ∧
    c2.outputRedirect = c.outputRedirect ∧ c2.outputFile = c.outputFile := by
  unfold bgCheck at h
  split at h
  · simp at h
  · split at h
    · simp at h
    · split at h <;> (simp only [Except.ok.injEq] at h; subst h; simp)

/-- A successfully parsed command with a clear redirect flag has an empty
target for that stream. -/
theorem parseCommand_files (pid raw : List Char) (c : Command)
    (h : parseCommand pid raw = Except.ok c) :
    (c.inputRedirect = false → c.inputFile = []) ∧
    (c.outputRedirect = false → c.outputFile = []) := by
  unfold parseCommand at h
  cases hp : parseLoop (tokenize (expandPid pid raw)) initCommand with
  | error e => rw [hp] at h; simp at h
  | ok c1 =>
    rw [hp] at h
    have hP := parseLoop_files (tokenize (expandPid pid raw)).length
      (tokenize (expandPid pid raw)) (Nat.le_refl _) initCommand c1 hp
      (fun _ => rfl) (fun _ => rfl)
    obtain ⟨hf1, hf2, hf3, hf4⟩ := bgCheck_frame c1 c h
    rw [hf1, hf2, hf3, hf4]
    exact hP

/-- The child of a background-eligible command has both redirect flags set
and keeps the targets it parsed. -/
theorem childSetup_bg (c : Command) (hb : c.backgroundProcess = true) :
    childSetup true c = { c with inputRedirect := true, outputRedirect := true } := by
  obtain ⟨args, n, ir, ifile, orf, ofile, bg⟩ := c
  simp only at hb
  subst hb
  unfold childSetup
  cases ir <;> cases orf <;> rfl

/-- C2: a command whose background marker survived parsing, dispatched while
background mode is allowed, has every stream it did not explicitly redirect
bound to the null device by the child-side setup that runs before `execvp`. -/
theorem c2_background_null_redirect (fs : FS) (pid raw : List Char)
    (c : Command) (b1 b2 : Binding)
    (hp : parseCommand pid raw = Except.ok c) (hb : c.backgroundProcess = true)
    (hr : inputoutputRedirect fs (childSetup true c) = Except.ok (b1, b2)) :
    (c.inputRedirect = false → b1 = Binding.nullDev) ∧
    (c.outputRedirect = false → b2 = Binding.nullDev) := by
  obtain ⟨hin, hout⟩ := parseCommand_files pid raw c hp
  rw [childSetup_bg c hb] at hr
  unfold inputoutputRedirect at hr
  constructor
  · intro hflag
    have hfile : c.inputFile = [] := hin hflag
    have hstdin : redirectStdin fs { c with inputRedirect := true, outputRedirect := true }
        = Except.ok Binding.nullDev := by
      unfold redirectStdin
      simp [hfile]
    rw [hstdin] at hr
    cases hstdout : redirectStdout fs { c with inputRedirect := true, outputRedirect := true } with
    | error e => rw [hstdout] at hr; exact Except.noConfusion hr
    | ok bOut =>
      rw [hstdout] at hr
      simp only [Except.ok.injEq, Prod.mk.injEq] at hr
      exact hr.1.symm
  · intro hflag
    have hfile : c.outputFile = [] := hout hflag
    have hstdout : redirectStdout fs { c with inputRedirect := true, outputRedirect := true }
        = Except.ok Binding.nullDev := by
      unfold redirectStdout
      simp [hfile]
    cases hstdin : redirectStdin fs { c with inputRedirect := true, outputRedirect := true } with
    | error e => rw [hstdin] at hr; exact Except.noConfusion hr
    | ok bIn =>
      rw [hstdin, hstdout] at hr
      simp only [Except.ok.injEq, Prod.mk.injEq] at hr
      exact hr.2.symm

/-- Closed witness for C2: the line `sleep &`, background allowed, no
explicit redirection; both child streams come out as the null device. -/
theorem c2_background_null_redirect_witness :
    (({ initCommand with
        args := [['s', 'l', 'e', 'e', 'p']]
        numArgs := 2
        backgroundProcess := true } : Command).inputRedirect = false →
      Binding.nullDev = Binding.nullDev) ∧
    (({ initCommand with
        args := [['s', 'l', 'e', 'e', 'p']]
        numArgs := 2
        backgroundProcess := true } : Command).outputRedirect = false →
      Binding.nullDev = Binding.nullDev) :=
  c2_background_null_redirect ⟨fun _ => true, fun _ => true⟩ "42".data "sleep &".data
    { initCommand with
      args := [['s', 'l', 'e', 'e', 'p']]
      numArgs := 2
      backgroundProcess := true }
    Binding.nullDev Binding.nullDev (by rfl) (by rfl) (by rfl)

/-- C1 counterexample: deliver the toggle while a foreground command runs
(`beginCmd`, `sigtstp`, then the wait returns).  Exactly one notice is
emitted, but on this deferred path its text is
`Entering foreground-only mode (& will be ignored).` — the claimed text
`Entering foreground-only mode (& is now ignored).` appears nowhere in the
emitted output, so the claim's "on both the immediate and the deferred path"
is false. -/
theorem c1_mode_notice_counterexample :
    (runMode initModeState [MEvent.beginCmd, MEvent.sigtstp, MEvent.fgRet]).2
      = [msgEnterDef] ∧
    containsPat "Entering foreground-only mode (& is now ignored).".data
      msgEnterDef.data = false ∧
    containsPat "Entering foreground-only mode (& will be ignored).".data
      msgEnterDef.data = true := by
  refine ⟨rfl, by decide, by decide⟩

/-- C1 as amended: each toggle delivery sets the pending flag; with no
command in progress the notice is written immediately by the handler
(entering: `& is now ignored`, exiting: `Exiting foreground-only mode.`) and
the flag cleared; otherwise the notice is deferred to the next
foreground-wait return, whose entering text is `& will be ignored`.  Along
any event trace in which no second toggle arrives while a notice is still
pending, emitted notices plus the one still pending equal the number of
deliveries — each delivery yields exactly one notice once its flush point is
reached — and every emitted notice is one of the four fixed texts. -/
theorem c1_mode_notice_amended :
    ∀ (t : List MEvent) (s : ModeState),
      wfMode s.sigtstpTriggered s.processActive t = true →
      (runMode s t).2.length + pendCount (runMode s t).1
          = countSig t + pendCount s ∧
      ∀ m ∈ (runMode s t).2,
        m = msgEnterImm ∨ m = msgExitImm ∨ m = msgEnterDef ∨ m = msgExitDef := by
  intro t
  induction t with
  | nil =>
    intro s _
    exact ⟨by simp [runMode, countSig], by intro m hm; simp [runMode] at hm⟩
  | cons e rest ih =>
    intro s hwf
    have hrun : runMode s (e :: rest)
        = ((runMode (stepMode s e).1 rest).1,
           (stepMode s e).2 ++ (runMode (stepMode s e).1 rest).2) := rfl
    cases e with
    | sigtstp =>
      simp only [wfMode, Bool.and_eq_true, Bool.not_eq_true'] at hwf
      obtain ⟨hp0, hwf2⟩ := hwf
      have hcs : countSig (MEvent.sigtstp :: rest) = countSig rest + 1 := rfl
      by_cases hA : s.processActive = true
      · have hstep : (stepMode s MEvent.sigtstp).2 = [] ∧
            (stepMode s MEvent.sigtstp).1.sigtstpTriggered = true ∧
            (stepMode s MEvent.sigtstp).1.processActive = s.processActive := by
          cases hF : s.handlerFg <;>
            simp [stepMode, foregroundonly, allowbackground, hF, hA]
        obtain ⟨ho, ht, hac⟩ := hstep
        have ihw : wfMode (stepMode s MEvent.sigtstp).1.sigtstpTriggered
            (stepMode s MEvent.sigtstp).1.processActive rest = true := by
          rw [ht, hac, hA]
          rw [hA] at hwf2
          exact hwf2
        obtain ⟨hc, hm⟩ := ih _ ihw
        constructor
        · rw [hrun]
          simp only [List.length_append, ho, List.length_nil, hcs]
          have h1 : pendCount (stepMode s MEvent.sigtstp).1 = 1 := by
            simp [pendCount, ht]
          have h2 : pendCount s = 0 := by simp [pendCount, hp0]
          rw [h1] at hc
          rw [h2]
          omega
        · rw [hrun]
          intro m hm2
          simp only [ho, List.nil_append] at hm2
          exact hm m hm2
      · have hA' : s.processActive = false := by
          revert hA; cases s.processActive <;> simp
        have hstep : ((stepMode s MEvent.sigtstp).2 = [msgEnterImm] ∨
              (stepMode s MEvent.sigtstp).2 = [msgExitImm]) ∧
            (stepMode s MEvent.sigtstp).1.sigtstpTriggered = false ∧
            (stepMode s MEvent.sigtstp).1.processActive = s.processActive := by
          cases hF : s.handlerFg <;>
            simp [stepMode, foregroundonly, allowbackground, hF, hA']
        obtain ⟨ho, ht, hac⟩ := hstep
        have hlen1 : (stepMode s MEvent.sigtstp).2.length = 1 := by
          rcases ho with h | h <;> simp [h]
        have ihw : wfMode (stepMode s MEvent.sigtstp).1.sigtstpTriggered
            (stepMode s MEvent.sigtstp).1.processActive rest = true := by
          rw [ht, hac, hA']
          rw [hA'] at hwf2
          exact hwf2
        obtain ⟨hc, hm⟩ := ih _ ihw
        constructor
        · rw [hrun]
          simp only [List.length_append, hlen1, hcs]
          have h1 : pendCount (stepMode s MEvent.sigtstp).1 = 0 := by
            simp [pendCount, ht]
          have h2 : pendCount s = 0 := by simp [pendCount, hp0]
          rw [h1] at hc
          rw [h2]
          omega
        · rw [hrun]
          intro m hm2
          rw [List.mem_append] at hm2
          rcases hm2 with hm2 | hm2
          · rcases ho with h | h <;> rw [h] at hm2 <;> simp at hm2 <;> simp [hm2]
          · exact hm m hm2
    | beginCmd =>
      simp only [wfMode] at hwf
      have hstep : stepMode s MEvent.beginCmd = ({ s with processActive := true }, []) := rfl
      obtain ⟨hc, hm⟩ := ih { s with processActive := true } (by simpa using hwf)
      constructor
      · rw [hrun]
        simp only [hstep, List.nil_append, List.length_nil]
        have : countSig (MEvent.beginCmd :: rest) = countSig rest := rfl
        rw [this]
        simpa [pendCount] using hc
      · rw [hrun]
        intro m hm2
        simp only [hstep, List.nil_append] at hm2
        exact hm m hm2
    | endCmd =>
      simp only [wfMode] at hwf
      have hstep : stepMode s MEvent.endCmd = ({ s with processActive := false }, []) := rfl
      obtain ⟨hc, hm⟩ := ih { s with processActive := false } (by simpa using hwf)
      constructor
      · rw [hrun]
        simp only [hstep, List.nil_append, List.length_nil]
        have : countSig (MEvent.endCmd :: rest) = countSig rest := rfl
        rw [this]
        simpa [pendCount] using hc
      · rw [hrun]
        intro m hm2
        simp only [hstep, List.nil_append] at hm2
        exact hm m hm2
    | fgRet =>
      simp only [wfMode] at hwf
      have hcs : countSig (MEvent.fgRet :: rest) = countSig rest := rfl
      by_cases hT : s.sigtstpTriggered = true
      · have hstep : stepMode s MEvent.fgRet
            = ({ s with sigtstpTriggered := false },
               [if s.allowBackground then msgExitDef else msgEnterDef]) := by
          simp [stepMode, hT]
        obtain ⟨hc, hm⟩ := ih { s with sigtstpTriggered := false } (by simpa using hwf)
        constructor
        · rw [hrun]
          simp only [hstep, List.length_append, List.length_cons, List.length_nil, hcs]
          have h2 : pendCount s = 1 := by simp [pendCount, hT]
          rw [h2]
          simp only [pendCount] at hc ⊢
          simp at hc
          omega
        · rw [hrun]
          intro m hm2
          rw [List.mem_append] at hm2
          rcases hm2 with hm2 | hm2
          · rw [hstep] at hm2
            simp only [List.mem_singleton] at hm2
            cases hab : s.allowBackground <;> rw [hab] at hm2 <;> simp at hm2 <;>
              simp [hm2]
          · rw [hstep] at hm2
            exact hm m hm2
      · have hT' : s.sigtstpTriggered = false := by
          revert hT; cases s.sigtstpTriggered <;> simp
        have hstep : stepMode s MEvent.fgRet = (s, []) := by
          simp [stepMode, hT']
        obtain ⟨hc, hm⟩ := ih s (by simpa [hT'] using hwf)
        constructor
        · rw [hrun]
          simp only [hstep, List.nil_append, List.length_nil, hcs]
          omega
        · rw [hrun]
          intro m hm2
          simp only [hstep, List.nil_append] at hm2
          exact hm m hm2

/-- Closed witness for C1's amended theorem: a single delivery at the idle
initial state emits exactly one notice. -/
theorem c1_mode_notice_amended_witness :
    (runMode initModeState [MEvent.sigtstp]).2.length
        + pendCount (runMode initModeState [MEvent.sigtstp]).1
      = countSig [MEvent.sigtstp] + pendCount initModeState ∧
    ∀ m ∈ (runMode initModeState [MEvent.sigtstp]).2,
      m = msgEnterImm ∨ m = msgExitImm ∨ m = msgEnterDef ∨ m = msgExitDef :=
  c1_mode_notice_amended [MEvent.sigtstp] initModeState (by decide)

/-- C9: the last-exit-status cell is written only by the foreground-wait path
of `routeCommand`; reaping any number of terminated background children in
`burnZombie` leaves it unchanged (their statuses land in the local
`zStatus`), and every non-foreground dispatch that continues the loop leaves
it unchanged as well. -/
theorem c9_exit_status_frame (st : ShellState) (zs : List (Nat × Nat))
    (sys : Sys) (c : Command) (st2 : ShellState) (out : List String)
    (h : routeCommand sys c st = RouteResult.cont st2 out) :
    (burnZombie st zs).1.exitStatus = st.exitStatus ∧
    st2.exitStatus = (if foregroundDispatch c st then sys.waitStatus else st.exitStatus) := by
  refine ⟨rfl, ?_⟩
  unfold routeCommand at h
  cases hargs : c.args with
  | nil => rw [hargs] at h; exact RouteResult.noConfusion h
  | cons a0 rest =>
    rw [hargs] at h
    dsimp only at h
    by_cases h1 : a0 = "cd".data
    · rw [if_pos h1] at h
      have hf : foregroundDispatch c st = false := by
        unfold foregroundDispatch; rw [hargs]; simp [h1]
      rw [hf]
      simp only [RouteResult.cont.injEq] at h
      obtain ⟨hst, _⟩ := h
      rw [← hst]
      rfl
    · rw [if_neg h1] at h
      by_cases h2 : a0 = "status".data
      · rw [if_pos h2] at h
        have hf : foregroundDispatch c st = false := by
          unfold foregroundDispatch; rw [hargs]; simp [h2]
        rw [hf]
        simp only [RouteResult.cont.injEq] at h
        obtain ⟨hst, _⟩ := h
        rw [← hst]
        rfl
      · rw [if_neg h2] at h
        by_cases h3 : a0 = "exit".data
        · rw [if_pos h3] at h
          exact RouteResult.noConfusion h
        · rw [if_neg h3] at h
          by_cases h4 : (!sys.forkOk) = true
          · rw [if_pos h4] at h
            exact RouteResult.noConfusion h
          · rw [if_neg h4] at h
            by_cases h5 : (c.backgroundProcess && st.allowBackground) = true
            · rw [if_pos h5] at h
              have hf : foregroundDispatch c st = false := by
                unfold foregroundDispatch; rw [hargs]
                simp [h1, h2, h3]
                exact Bool.and_eq_true ..|>.mp h5
              rw [hf]
              simp only [RouteResult.cont.injEq] at h
              obtain ⟨hst, _⟩ := h
              rw [← hst]
              rfl
            · rw [if_neg h5] at h
              have hf : foregroundDispatch c st = true := by
                unfold foregroundDispatch; rw [hargs]
                simp [h1, h2, h3]
                revert h5
                cases c.backgroundProcess <;> cases st.allowBackground <;> simp
              rw [hf]
              by_cases hT : st.sigtstpTriggered = true
              · rw [if_pos hT] at h
                simp only [RouteResult.cont.injEq] at h
                obtain ⟨hst, _⟩ := h
                rw [← hst]
                rfl
              · rw [if_neg hT] at h
                simp only [RouteResult.cont.injEq] at h
                obtain ⟨hst, _⟩ := h
                rw [← hst]
                rfl

/-- Closed witness for C9: a `status` dispatch with one reapable zombie:
the stored status survives both the reap and the dispatch. -/
theorem c9_exit_status_frame_witness :
    (burnZombie ⟨7, true, false, []⟩ [(5, 0)]).1.exitStatus
        = (⟨7, true, false, []⟩ : ShellState).exitStatus ∧
    (⟨7, true, false, []⟩ : ShellState).exitStatus
      = (if foregroundDispatch { initCommand with args := [['s', 't', 'a', 't', 'u', 's']], numArgs := 1 }
            ⟨7, true, false, []⟩
         then (⟨⟨none, fun _ => true⟩, true, 9, 0⟩ : Sys).waitStatus
         else (⟨7, true, false, []⟩ : ShellState).exitStatus) :=
  c9_exit_status_frame ⟨7, true, false, []⟩ [(5, 0)] ⟨⟨none, fun _ => true⟩, true, 9, 0⟩
    { initCommand with args := [['s', 't', 'a', 't', 'u', 's']], numArgs := 1 }
    ⟨7, true, false, []⟩
    (reportStatus 7) (by rfl)

/-- C10: `cd` prints an error exactly when it was given an explicit path and
`chdir` failed on it; with no argument a failed change to the home directory
(including an unset `HOME`, where `getenv` yields `NULL`) is silent and
leaves the working directory unchanged; and no `cd` path ever terminates the
interpreter. -/
theorem c10_cd_error_reporting (sys : CdSys) (cwd : List Char)
    (dir : Option (List Char)) :
    ((cd sys cwd dir).reported = true ↔
      ∃ d, dir = some d ∧ sys.chdirOk d = false) ∧
    (dir = none → (∀ p, sys.home = some p → sys.chdirOk p = false) →
      (cd sys cwd dir).cwd = cwd ∧ (cd sys cwd dir).reported = false) ∧
    (cd sys cwd dir).fatal = false := by
  refine ⟨?_, ?_, ?_⟩
  · cases dir with
    | none => simp [cd]
    | some d =>
      unfold cd chdirSys
      by_cases hok : sys.chdirOk d = true
      · simp [hok]
      · have hok' : sys.chdirOk d = false := by
          revert hok; cases sys.chdirOk d <;> simp
        simp [hok']
  · intro hdir hfail
    subst hdir
    unfold cd chdirSys
    cases hh : sys.home with
    | none => simp
    | some p0 => simp [hfail p0 hh]
  · cases dir <;> simp [cd]

/-- Closed witness for C10: `HOME` unset, bare `cd`: silent, directory kept,
not fatal; and the reporting criterion instantiated there. -/
theorem c10_cd_error_reporting_witness :
    ((cd ⟨none, fun _ => false⟩ "/w".data none).reported = true ↔
      ∃ d, (none : Option (List Char)) = some d ∧
        (⟨none, fun _ => false⟩ : CdSys).chdirOk d = false) ∧
    ((none : Option (List Char)) = none →
      (∀ p, (⟨none, fun _ => false⟩ : CdSys).home = some p →
        (⟨none, fun _ => false⟩ : CdSys).chdirOk p = false) →
      (cd ⟨none, fun _ => false⟩ "/w".data none).cwd = "/w".data ∧
      (cd ⟨none, fun _ => false⟩ "/w".data none).reported = false) ∧
    (cd ⟨none, fun _ => false⟩ "/w".data none).fatal = false :=
  c10_cd_error_reporting ⟨none, fun _ => false⟩ "/w".data none
